import Mathlib

/-!
Verification of the line-based skeletonizer `strip_logic_from_content`
from `src/strip_logic_from_content.mjs`.  The function splits its input
on newline characters, classifies each line with a fixed priority of
regular-expression matchers, and rebuilds a reduced "skeleton" text.

Lines are modelled as `List Char` (a JavaScript string split on `'\n'`);
every regular expression of the source is hand-compiled to a total
matcher with the same backtracking semantics on its pattern shape.
-/

abbrev Line := List Char

/-- Whitespace as matched by JavaScript `\s` and `String.prototype.trim`
(restricted to the ASCII range, which is what the repository's inputs use). -/
def jsWhitespace (c : Char) : Bool :=
  c == ' ' || c == '\t' || c == '\n' || c == '\r' || c == '\x0b' || c == '\x0c'

/-- Drop leading JavaScript whitespace. -/
def dropWs (l : Line) : Line := l.dropWhile jsWhitespace

/-- JavaScript `String.prototype.trim`: drop whitespace from both ends. -/
def jsTrim (l : Line) : Line := ((dropWs l).reverse.dropWhile jsWhitespace).reverse

/-- JavaScript `\w`: ASCII letters, digits and underscore. -/
def isWordChar (c : Char) : Bool := c.isAlpha || c.isDigit || c == '_'

/-- Match a literal keyword at the head of the line, returning the rest. -/
def litKw : List Char → Line → Option Line
  | [], l => some l
  | _ :: _, [] => none
  | k :: ks, c :: cs => if c = k then litKw ks cs else none

/-- Match `keyword\s+` (keyword followed by at least one whitespace
character), returning the rest with the whitespace consumed; the
following regex tokens of every use site start with a non-whitespace
character, so consuming the whole run is faithful to the greedy engine. -/
def kwWs : List Char → Line → Option Line
  | [], l =>
    match l with
    | [] => none
    | c :: cs => if jsWhitespace c then some (dropWs cs) else none
  | k :: ks, l =>
    match l with
    | [] => none
    | c :: cs => if c = k then kwWs ks cs else none

/-- An optional `(keyword\s+)?` group: consume it when it matches. -/
def optKw (ks : List Char) (l : Line) : Line := (kwWs ks l).getD l

def kwExport : List Char := ['e', 'x', 'p', 'o', 'r', 't']
def kwImport : List Char := ['i', 'm', 'p', 'o', 'r', 't']
def kwAbstract : List Char := ['a', 'b', 's', 't', 'r', 'a', 'c', 't']
def kwClass : List Char := ['c', 'l', 'a', 's', 's']
def kwInterface : List Char := ['i', 'n', 't', 'e', 'r', 'f', 'a', 'c', 'e']
def kwAsync : List Char := ['a', 's', 'y', 'n', 'c']
def kwFunction : List Char := ['f', 'u', 'n', 'c', 't', 'i', 'o', 'n']
def kwConst : List Char := ['c', 'o', 'n', 's', 't']
def kwLet : List Char := ['l', 'e', 't']
def kwVar : List Char := ['v', 'a', 'r']
def kwConstructor : List Char := ['c', 'o', 'n', 's', 't', 'r', 'u', 'c', 't', 'o', 'r']
def kwGet : List Char := ['g', 'e', 't']
def kwSet : List Char := ['s', 'e', 't']

/-- Pattern `\s*\{?$`: only whitespace remains, possibly with one final `{`. -/
def wsOptBraceEnd (b : Line) : Bool :=
  match dropWs b with
  | [] => true
  | c :: rest => c == '{' && rest.isEmpty

/-- Pattern `\s*\{` (not anchored at the end): whitespace then an opening brace. -/
def wsThenBrace (b : Line) : Bool :=
  match dropWs b with
  | c :: _ => c == '{'
  | [] => false

/-- Characters matched by the JavaScript regex `.` (anything except the
line terminators `\n`, `\r`, U+2028 and U+2029). -/
def isDotChar (c : Char) : Bool :=
  !(c == '\n' || c == '\r' || c == '\u2028' || c == '\u2029')

/-- Pattern `.*\)k`: some closing parenthesis, preceded only by
characters the regex `.` accepts, whose remainder satisfies `k` (the
backtracking search of a greedy `.*` reduced to existence of a split). -/
def exParenThen (k : Line → Bool) : Line → Bool
  | [] => false
  | c :: cs => (c == ')' && k cs) || (isDotChar c && exParenThen k cs)

/-- Pattern `\(.*\)k`: an opening parenthesis followed by `exParenThen k`. -/
def parenTail (k : Line → Bool) (r : Line) : Bool :=
  match r with
  | '(' :: rest => exParenThen k rest
  | _ => false

/-- Pattern `keyword\s+\w+` (rest unconstrained). -/
def kwThenIdent (ks : List Char) (l : Line) : Bool :=
  match kwWs ks l with
  | some (c :: _) => isWordChar c
  | _ => false

/-- Pattern `^(export\s+)?(abstract\s+)?(class|interface)\s+\w+` on the trimmed line. -/
def classDeclT (t : Line) : Bool :=
  let t2 := optKw kwAbstract (optKw kwExport t)
  kwThenIdent kwClass t2 || kwThenIdent kwInterface t2

def isClassOrInterfaceDecl (line : Line) : Bool := classDeclT (jsTrim line)

/-- Pattern `\w+\s*\(.*\)` followed by tail `k`: an identifier, optional
whitespace, then a parenthesized segment. -/
def identThenParenTail (k : Line → Bool) (r : Line) : Bool :=
  match r with
  | c :: _ => isWordChar c && parenTail k (dropWs (r.dropWhile isWordChar))
  | [] => false

/-- Pattern `^(export\s+)?(async\s+)?function\s+\w+\s*\(.*\)\s*\{?$` on the trimmed line. -/
def funcDeclT (t : Line) : Bool :=
  match kwWs kwFunction (optKw kwAsync (optKw kwExport t)) with
  | some r => identThenParenTail wsOptBraceEnd r
  | none => false

/-- Pattern `=>\s*\{?$` after optional whitespace. -/
def arrowK (b : Line) : Bool :=
  match dropWs b with
  | '=' :: '>' :: rest => wsOptBraceEnd rest
  | _ => false

/-- One of the binding keywords `const`, `let`, `var` followed by whitespace. -/
def afterBindingKw (t : Line) : Option Line :=
  match kwWs kwConst t with
  | some r => some r
  | none =>
    match kwWs kwLet t with
    | some r => some r
    | none => kwWs kwVar t

/-- Pattern `\w+\s*=\s*(async\s+)?\(.*\)\s*=>\s*\{?$` after the binding keyword. -/
def arrowAfterName (r : Line) : Bool :=
  match r with
  | c :: _ =>
    isWordChar c &&
      (match dropWs (r.dropWhile isWordChar) with
       | '=' :: r2 => parenTail arrowK (optKw kwAsync (dropWs r2))
       | _ => false)
  | [] => false

/-- Pattern `^(export\s+)?(const|let|var)\s+\w+\s*=\s*(async\s+)?\(.*\)\s*=>\s*\{?$`. -/
def arrowDeclT (t : Line) : Bool :=
  match afterBindingKw (optKw kwExport t) with
  | some r => arrowAfterName r
  | none => false

def isFunctionDecl (line : Line) : Bool :=
  funcDeclT (jsTrim line) || arrowDeclT (jsTrim line)

/-- Pattern `(constructor|get|set)\s*\(.*\)\s*\{?$` (keyword then optional
whitespace then parenthesized segment). -/
def ctorGetSetT (t : Line) : Bool :=
  (match litKw kwConstructor t with
   | some r => parenTail wsOptBraceEnd (dropWs r)
   | none => false) ||
  (match litKw kwGet t with
   | some r => parenTail wsOptBraceEnd (dropWs r)
   | none => false) ||
  (match litKw kwSet t with
   | some r => parenTail wsOptBraceEnd (dropWs r)
   | none => false)

/-- Pattern `^(async\s+)?(constructor|get|set)\s*\(.*\)\s*\{?$`. -/
def mdA (t : Line) : Bool := ctorGetSetT (optKw kwAsync t)

/-- Pattern `get\s+\w+\s*\(\)\s*\{?$` after the optional `async`. -/
def getNamedT (t : Line) : Bool :=
  match kwWs kwGet t with
  | some r =>
    (match r with
     | c :: _ =>
       isWordChar c &&
         (match dropWs (r.dropWhile isWordChar) with
          | '(' :: ')' :: rest => wsOptBraceEnd rest
          | _ => false)
     | [] => false)
  | none => false

/-- Pattern `^(async\s+)?get\s+\w+\s*\(\)\s*\{?$`. -/
def mdB (t : Line) : Bool := getNamedT (optKw kwAsync t)

/-- Pattern `set\s+\w+\s*\(.*\)\s*\{?$` after the optional `async`. -/
def setNamedT (t : Line) : Bool :=
  match kwWs kwSet t with
  | some r => identThenParenTail wsOptBraceEnd r
  | none => false

/-- Pattern `^(async\s+)?set\s+\w+\s*\(.*\)\s*\{?$`. -/
def mdC (t : Line) : Bool := setNamedT (optKw kwAsync t)

/-- Pattern `^(async\s+)?\w+\s*\(.*\)\s*\{?$`.  Unlike the other
member patterns, here `\w+` can itself match `async`, so the engine's
backtracking over the optional group matters: the line matches with the
group consumed or with the group empty (on `async (x) {` the group is
skipped and `\w+` matches `async`). -/
def mdD (t : Line) : Bool :=
  identThenParenTail wsOptBraceEnd (optKw kwAsync t) ||
  identThenParenTail wsOptBraceEnd t

/-- Disjunction of the four `methodDeclRegexes` of the source. -/
def methodDeclT (t : Line) : Bool := mdA t || mdB t || mdC t || mdD t

def isMethodDecl (line : Line) : Bool := methodDeclT (jsTrim line)

/-- Pattern `\(.+\)\s*\{` after the `if` keyword and whitespace: a parenthesis,
at least one character the regex `.` accepts, a closing parenthesis,
whitespace, an opening brace (rest unconstrained). -/
def ifTail (r : Line) : Bool :=
  match r with
  | [] => false
  | c :: cs => isDotChar c && exParenThen wsThenBrace cs

/-- Pattern `^\s*if\s*\(.+\)\s*\{` on the trimmed line (the leading `\s*` is
vacuous after trimming). -/
def ifStatementT (t : Line) : Bool :=
  match litKw ['i', 'f'] t with
  | some r =>
    (match dropWs r with
     | '(' :: r2 => ifTail r2
     | _ => false)
  | none => false

def isIfStatement (line : Line) : Bool := ifStatementT (jsTrim line)

/-- Pattern `^import\s+` or `^export\s+` on the trimmed line. -/
def importExportT (t : Line) : Bool :=
  (kwWs kwImport t).isSome || (kwWs kwExport t).isSome

def isImportExport (line : Line) : Bool := importExportT (jsTrim line)

/-- The trimmed line starts with the doc-comment opener. -/
def jsdocStartT (t : Line) : Bool := (litKw ['/', '*', '*'] t).isSome

def isJSDocStart (line : Line) : Bool := jsdocStartT (jsTrim line)

/-- The trimmed line ends with the block-comment closer. -/
def endsWithCloseComment (t : Line) : Bool :=
  match t.reverse with
  | '/' :: '*' :: _ => true
  | _ => false

def isJSDocEnd (line : Line) : Bool := endsWithCloseComment (jsTrim line)

/-- Model of `isComment` of the source: a `//` line, a `/*` line that is not a
doc-comment opener, or a line ending in the block-comment closer. -/
def commentT (t : Line) : Bool :=
  (litKw ['/', '/'] t).isSome ||
  ((litKw ['/', '*'] t).isSome && !(jsdocStartT t)) ||
  endsWithCloseComment t

def isComment (line : Line) : Bool := commentT (jsTrim line)

/-- The trimmed line ends with an opening brace (`/\{$/` and `endsWith`). -/
def endsWithBrace (t : Line) : Bool :=
  match t.reverse with
  | c :: _ => c == '{'
  | [] => false

/-- Model of `decl.replace(/\{\s*$/, '')`: remove the last opening brace together
with the whitespace after it, when only whitespace follows it. -/
def stripTrailingBrace : Line → Line
  | [] => []
  | c :: cs =>
    if c = '{' && cs.all jsWhitespace then []
    else c :: stripTrailingBrace cs

/-- Model of `/\(.*\)/.test(decl)`: an opening parenthesis with a closing
one after it, only `.`-matchable characters in between. -/
def hasParenPair : Line → Bool
  | [] => false
  | c :: cs => (c == '(' && exParenThen (fun _ => true) cs) || hasParenPair cs

/-- Model of `decl.replace(/\s+\{\}/, '{}')`: delete the first whitespace run
that immediately precedes the characters `{}`. -/
def collapseWsBraces : Line → Line
  | [] => []
  | c :: cs =>
    if jsWhitespace c then
      match dropWs cs with
      | '{' :: '}' :: rest => '{' :: '}' :: rest
      | _ => c :: collapseWsBraces cs
    else c :: collapseWsBraces cs

/-- Model of `decl.replace(/\)\s*=>\s*\{\}/, ')=>{}')`: collapse the whitespace
around the first arrow that is followed by the empty body marker. -/
def collapseArrowWs : Line → Line
  | [] => []
  | c :: cs =>
    if c = ')' then
      match dropWs cs with
      | '=' :: '>' :: r2 =>
        (match dropWs r2 with
         | '{' :: '}' :: rest => ')' :: '=' :: '>' :: '{' :: '}' :: rest
         | _ => c :: collapseArrowWs cs)
      | _ => c :: collapseArrowWs cs
    else c :: collapseArrowWs cs

/-- Model of `finalizeDeclaration` of the source: strip a trailing opening brace,
ensure a parameter list, append the empty body `{}`, collapse the
whitespace before it and around an arrow. -/
def finalizeDeclaration (decl : Line) : Line :=
  let d1 := stripTrailingBrace decl
  let d2 := if hasParenPair d1 then d1 else d1 ++ ['(', ')']
  let d3 := d2 ++ ['{', '}']
  collapseArrowWs (collapseWsBraces d3)

/-- The scanner state of the main loop: `inJSDoc`, `inClass`,
`skippingMethodBody` of the source. -/
structure ScanState where
  inJSDoc : Bool
  inClass : Bool
  skip : Nat
deriving DecidableEq, Repr

def initState : ScanState := ⟨false, false, 0⟩

/-- One iteration of the `for (let line of lines)` loop of the source:
the next state and the lines pushed onto `result` for this input line. -/
def step (st : ScanState) (line : Line) : ScanState × List Line :=
  let trimmed := jsTrim line
  if st.skip > 0 then
    let s1 := if trimmed.contains '{' then st.skip + 1 else st.skip
    let s2 := if trimmed.contains '}' then s1 - 1 else s1
    ({ st with skip := s2 }, [])
  else if st.inJSDoc then
    ({ st with inJSDoc := !(isJSDocEnd line) }, [line])
  else if isJSDocStart line then
    ({ st with inJSDoc := true }, [line])
  else if isIfStatement line then
    (st, [])
  else if isClassOrInterfaceDecl line then
    ({ st with inClass := true },
     [if endsWithBrace trimmed then trimmed else trimmed ++ [' ', '{']])
  else if trimmed = ['}'] then
    (if st.inClass then ({ st with inClass := false }, [['}']]) else (st, []))
  else if st.inClass then
    (if isMethodDecl line then
       ({ st with skip := if endsWithBrace trimmed then 1 else 0 },
        [' ' :: ' ' :: finalizeDeclaration trimmed])
     else (st, []))
  else if isFunctionDecl line then
    ({ st with skip := if endsWithBrace trimmed then 1 else 0 },
     [finalizeDeclaration trimmed])
  else if isImportExport line || isComment line || st.inJSDoc then
    (st, [line])
  else
    (st, [])

/-- The whole loop: thread the state through the lines from left to
right, concatenating the pushed output lines. -/
def runLines (st : ScanState) : List Line → ScanState × List Line
  | [] => (st, [])
  | l :: ls =>
    ((runLines (step st l).1 ls).1,
     (step st l).2 ++ (runLines (step st l).1 ls).2)

/-- Model of `content.split('\n')`. -/
def splitLines : List Char → List Line
  | [] => [[]]
  | c :: cs =>
    if c = '\n' then [] :: splitLines cs
    else
      match splitLines cs with
      | [] => [[c]]
      | a :: rest => (c :: a) :: rest

/-- A buffered line whose trimmed form is empty. -/
def isBlankLine (l : Line) : Bool := (jsTrim l).isEmpty

/-- The final `while (...) result.pop()` of the source: drop trailing
blank lines from the output buffer. -/
def dropTrailingBlanks (ls : List Line) : List Line :=
  (ls.reverse.dropWhile isBlankLine).reverse

/-- Model of `result.join('\n')`. -/
def joinNL : List Line → List Char
  | [] => []
  | [l] => l
  | l :: ls => l ++ '\n' :: joinNL ls

/-- The whole transformation on a character sequence. -/
def stripCore (cs : List Char) : List Char :=
  joinNL (dropTrailingBlanks (runLines initState (splitLines cs)).2) ++ ['\n']

/-- Model of `strip_logic_from_content` of the source, at the string boundary. -/
def strip_logic_from_content (content : String) : String :=
  String.mk (stripCore content.data)

/-! ### Helper lemmas about the matchers -/

theorem litKw_isSome_shape : ∀ (ks : List Char) (t : Line),
    (litKw ks t).isSome = true → ∃ r, t = ks ++ r := by
  intro ks
  induction ks with
  | nil => intro t _; exact ⟨t, rfl⟩
  | cons k ks ih =>
    intro t h
    cases t with
    | nil => simp [litKw] at h
    | cons c cs =>
      by_cases hc : c = k
      · subst hc
        simp only [litKw, if_pos rfl] at h
        obtain ⟨r, hr⟩ := ih cs h
        exact ⟨r, by rw [hr]; rfl⟩
      · simp [litKw, hc] at h

theorem kwWs_isSome_shape : ∀ (ks : List Char) (t : Line),
    (kwWs ks t).isSome = true → ∃ c r, t = ks ++ c :: r ∧ jsWhitespace c = true := by
  intro ks
  induction ks with
  | nil =>
    intro t h
    cases t with
    | nil => simp [kwWs] at h
    | cons c cs =>
      by_cases hc : jsWhitespace c
      · exact ⟨c, cs, rfl, hc⟩
      · simp [kwWs, hc] at h
  | cons k ks ih =>
    intro t h
    cases t with
    | nil => simp [kwWs] at h
    | cons c cs =>
      by_cases hc : c = k
      · subst hc
        simp only [kwWs, if_pos rfl] at h
        obtain ⟨d, r, hr, hd⟩ := ih cs h
        exact ⟨d, r, by rw [hr]; rfl, hd⟩
      · simp [kwWs, hc] at h

theorem ifStatementT_shape {t : Line} (h : ifStatementT t = true) :
    ∃ r, t = 'i' :: 'f' :: r := by
  have hk : (litKw ['i', 'f'] t).isSome = true := by
    cases hl : litKw ['i', 'f'] t with
    | none => rw [ifStatementT, hl] at h; exact absurd h (by simp)
    | some r => simp
  obtain ⟨r, hr⟩ := litKw_isSome_shape _ _ hk
  exact ⟨r, hr⟩

theorem importExportT_shape {t : Line} (h : importExportT t = true) :
    (∃ c r, t = kwImport ++ c :: r ∧ jsWhitespace c = true) ∨
    (∃ c r, t = kwExport ++ c :: r ∧ jsWhitespace c = true) := by
  rcases Bool.or_eq_true .. |>.mp h with h1 | h2
  · exact Or.inl (kwWs_isSome_shape _ _ h1)
  · exact Or.inr (kwWs_isSome_shape _ _ h2)

theorem not_jsdocStart_of_ifStatement {line : Line} (h : isIfStatement line = true) :
    isJSDocStart line = false := by
  obtain ⟨r, hr⟩ := ifStatementT_shape h
  unfold isJSDocStart
  rw [hr]
  simp [jsdocStartT, litKw]

theorem not_classDecl_of_ifStatement {line : Line} (h : isIfStatement line = true) :
    isClassOrInterfaceDecl line = false := by
  obtain ⟨r, hr⟩ := ifStatementT_shape h
  unfold isClassOrInterfaceDecl
  rw [hr]
  simp [classDeclT, optKw, kwWs, kwThenIdent, kwExport, kwAbstract, kwClass, kwInterface]

theorem not_ifStatement_of_jsdocStart {line : Line} (h : isJSDocStart line = true) :
    isIfStatement line = false := by
  obtain ⟨r, hr⟩ := litKw_isSome_shape _ _ h
  unfold isIfStatement
  rw [hr]
  simp [ifStatementT, litKw]

theorem not_classDecl_of_jsdocStart {line : Line} (h : isJSDocStart line = true) :
    isClassOrInterfaceDecl line = false := by
  obtain ⟨r, hr⟩ := litKw_isSome_shape _ _ h
  unfold isClassOrInterfaceDecl
  rw [hr]
  simp [classDeclT, optKw, kwWs, kwThenIdent, kwExport, kwAbstract, kwClass, kwInterface]

theorem importExport_not_jsdocStart {line : Line} (h : isImportExport line = true) :
    isJSDocStart line = false := by
  unfold isJSDocStart
  rcases importExportT_shape h with ⟨c, r, hr, _⟩ | ⟨c, r, hr, _⟩ <;>
    rw [hr] <;> simp [jsdocStartT, litKw, kwImport, kwExport]

theorem importExport_not_ifStatement {line : Line} (h : isImportExport line = true) :
    isIfStatement line = false := by
  unfold isIfStatement
  rcases importExportT_shape h with ⟨c, r, hr, _⟩ | ⟨c, r, hr, _⟩ <;>
    rw [hr] <;> simp [ifStatementT, litKw, kwImport, kwExport]

theorem importExport_trim_ne_brace {line : Line} (h : isImportExport line = true) :
    ¬ (jsTrim line = ['}']) := by
  rcases importExportT_shape h with ⟨c, r, hr, _⟩ | ⟨c, r, hr, _⟩ <;>
    rw [hr] <;> simp [kwImport, kwExport]

theorem importExport_not_blank {line : Line} (h : isImportExport line = true) :
    isBlankLine line = false := by
  unfold isBlankLine
  rcases importExportT_shape h with ⟨c, r, hr, _⟩ | ⟨c, r, hr, _⟩ <;>
    rw [hr] <;> simp [kwImport, kwExport]

/-! ### Claims about single steps of the scanner -/

/-- Claim C2 (corrected).  While a body is being discarded
(`skip > 0`), a processed line is never emitted and changes the depth
by presence, not by occurrence count: the depth is incremented by one
when the trimmed line contains at least one opening brace and
decremented by one when it contains at least one closing brace. -/
theorem claim_c2 (st : ScanState) (line : Line) (h : 0 < st.skip) :
    step st line =
      ({ st with skip :=
          (if (jsTrim line).contains '{' then st.skip + 1 else st.skip) -
          (if (jsTrim line).contains '}' then 1 else 0) }, []) := by
  by_cases hb : '}' ∈ jsTrim line <;> simp [step, h, hb]

/-- Witness for C2: a concrete skipped line with one closing brace. -/
theorem claim_c2_witness :
    step ⟨false, false, 1⟩ ['}', '}'] = (⟨false, false, 0⟩, []) := by
  have h := claim_c2 ⟨false, false, 1⟩ ['}', '}'] (by decide)
  rw [h]; decide

/-- Counterexample for C2 as stated: on the line `{{` at depth 1 the
code moves to depth 2, not to depth `1 + 2` as per-occurrence counting
would demand. -/
theorem claim_c2_counterexample :
    ¬ ((step ⟨false, false, 1⟩ ['{', '{']).1.skip =
        1 + (jsTrim ['{', '{']).count '{' - (jsTrim ['{', '{']).count '}') := by
  decide

/-- Claim C3 (corrected).  Inside a type block (`inClass`, `skip = 0`,
not inside a doc comment), a line that is not the opening or closing
line, not a doc-comment opener and not itself a class/interface
declaration is dropped when it is a conditional, emitted as a reduced
two-space-indented member declaration when it matches the member
patterns, and silently dropped otherwise. -/
theorem claim_c3 (st : ScanState) (line : Line) (hc : st.inClass = true)
    (h0 : st.skip = 0) (hj : st.inJSDoc = false)
    (hjs : isJSDocStart line = false) (hcd : isClassOrInterfaceDecl line = false)
    (hbr : jsTrim line ≠ ['}']) :
    (step st line).2 =
      if isIfStatement line then []
      else if isMethodDecl line then [' ' :: ' ' :: finalizeDeclaration (jsTrim line)]
      else [] := by
  by_cases hif : isIfStatement line
  · simp [step, h0, hj, hjs, hif]
  · by_cases hm : isMethodDecl line <;>
      simp [step, h0, hj, hjs, hcd, hbr, hc, hif, hm]

/-- Witness for C3: a member line inside a class is reduced and indented. -/
theorem claim_c3_witness :
    (step ⟨false, true, 0⟩ ['f', 'o', 'o', '(', ')', ' ', '{']).2 =
      [[' ', ' ', 'f', 'o', 'o', '(', ')', '{', '}']] := by
  have h := claim_c3 ⟨false, true, 0⟩ ['f', 'o', 'o', '(', ')', ' ', '{']
    rfl rfl rfl (by decide) (by decide) (by decide)
  rw [h]; decide

/-- Counterexample for C3 as stated: inside a type block a doc-comment
opener line is emitted verbatim, although it is not a recognized member
declaration, so it is neither dropped nor emitted in reduced form. -/
theorem claim_c3_counterexample :
    (step ⟨false, true, 0⟩ ['/', '*', '*', ' ', 'd', ' ', '*', '/']).2 =
      [['/', '*', '*', ' ', 'd', ' ', '*', '/']] ∧
    isMethodDecl ['/', '*', '*', ' ', 'd', ' ', '*', '/'] = false := by
  decide

/-- Claim C5 (corrected).  A line matching the conditional pattern
contributes nothing to the output whenever the in-doc-comment state is
clear: at top level, inside a type block, or inside a skipped body. -/
theorem claim_c5 (st : ScanState) (line : Line) (hj : st.inJSDoc = false)
    (hif : isIfStatement line = true) : (step st line).2 = [] := by
  rcases Nat.eq_zero_or_pos st.skip with h0 | hpos
  · have hjs : isJSDocStart line = false := not_jsdocStart_of_ifStatement hif
    simp [step, h0, hj, hjs, hif]
  · simp [step, hpos]

/-- Witness for C5: a concrete conditional line at top level is dropped. -/
theorem claim_c5_witness :
    (step ⟨false, false, 0⟩
      ['i', 'f', ' ', '(', 'x', ')', ' ', '{', ' ', 'y', '(', ')', ';', ' ', '}']).2 = [] :=
  claim_c5 ⟨false, false, 0⟩ _ rfl (by decide)

/-- Counterexample for C5 as stated: a conditional line inside an open
doc comment is emitted verbatim, so its literal text appears in the
output; the whole input survives the transformation unchanged. -/
theorem claim_c5_counterexample :
    isIfStatement ['i', 'f', ' ', '(', 'x', ')', ' ', '{'] = true ∧
    strip_logic_from_content
        (String.mk ['/', '*', '*', ' ', 'a', '\n', 'i', 'f', ' ', '(', 'x', ')', ' ', '{', '\n']) =
      String.mk ['/', '*', '*', ' ', 'a', '\n', 'i', 'f', ' ', '(', 'x', ')', ' ', '{', '\n'] ∧
    (splitLines ['/', '*', '*', ' ', 'a', '\n', 'i', 'f', ' ', '(', 'x', ')', ' ', '{', '\n']).contains
      ['i', 'f', ' ', '(', 'x', ')', ' ', '{'] = true := by
  decide

/-- Claim C9 (confirmed).  A single-line documentation comment (trimmed
line starting with the opener and ending with the closer) is emitted
verbatim and sets the in-doc-comment state without clearing it; while
that state is set (and no body is being skipped, which the opener
guarantees), every line is emitted verbatim and the state is cleared
exactly when the trimmed line ends with the closer. -/
theorem claim_c9 :
    (∀ (st : ScanState) (line : Line), st.skip = 0 → st.inJSDoc = false →
        isJSDocStart line = true → isJSDocEnd line = true →
        (step st line).2 = [line] ∧ (step st line).1.inJSDoc = true ∧
        (step st line).1.skip = 0) ∧
    (∀ (st : ScanState) (line : Line), st.skip = 0 → st.inJSDoc = true →
        (step st line).2 = [line] ∧
        (step st line).1.inJSDoc = !(isJSDocEnd line) ∧
        (step st line).1.skip = 0) := by
  constructor
  · intro st line h0 hj hs _he
    simp [step, h0, hj, hs]
  · intro st line h0 hj
    simp [step, h0, hj]

/-- Witness for C9: a one-line doc comment is emitted and leaves the
state set; a later closing line clears it. -/
theorem claim_c9_witness :
    (step ⟨false, false, 0⟩ ['/', '*', '*', ' ', 'x', ' ', '*', '/']).2 =
      [['/', '*', '*', ' ', 'x', ' ', '*', '/']] ∧
    (step ⟨false, false, 0⟩ ['/', '*', '*', ' ', 'x', ' ', '*', '/']).1.inJSDoc = true ∧
    (step ⟨true, false, 0⟩ ['y', ' ', '*', '/']).1.inJSDoc = false := by
  refine ⟨(claim_c9.1 ⟨false, false, 0⟩ _ rfl rfl (by decide) (by decide)).1,
    (claim_c9.1 ⟨false, false, 0⟩ _ rfl rfl (by decide) (by decide)).2.1, ?_⟩
  have h := (claim_c9.2 ⟨true, false, 0⟩ ['y', ' ', '*', '/'] rfl rfl).2.1
  rw [h]; decide

/-- Claim C10 (confirmed).  While the in-doc-comment state is set (and
no body is being skipped), even a line matching the conditional pattern
is emitted verbatim: doc-comment passthrough precedes conditional
removal. -/
theorem claim_c10 (st : ScanState) (line : Line) (h0 : st.skip = 0)
    (hj : st.inJSDoc = true) (_hif : isIfStatement line = true) :
    (step st line).2 = [line] := by
  simp [step, h0, hj]

/-- Witness for C10: a concrete conditional line inside a doc comment. -/
theorem claim_c10_witness :
    (step ⟨true, false, 0⟩ ['i', 'f', ' ', '(', 'x', ')', ' ', '{']).2 =
      [['i', 'f', ' ', '(', 'x', ')', ' ', '{']] :=
  claim_c10 ⟨true, false, 0⟩ _ rfl rfl (by decide)

/-! ### Claims C1, C4, C8 -/

/-- Sample input `class Foo {` / `  method() {` / `  }` / `}` with a final newline. -/
def sampleClassSrc : List Char :=
  ['c', 'l', 'a', 's', 's', ' ', 'F', 'o', 'o', ' ', '{', '\n',
   ' ', ' ', 'm', 'e', 't', 'h', 'o', 'd', '(', ')', ' ', '{', '\n',
   ' ', ' ', '}', '\n', '}', '\n']

/-- Sample text `class Foo {` / `  method(){}` / `}` with a final newline: the
reduced skeleton form of `sampleClassSrc`. -/
def sampleSkeleton : List Char :=
  ['c', 'l', 'a', 's', 's', ' ', 'F', 'o', 'o', ' ', '{', '\n',
   ' ', ' ', 'm', 'e', 't', 'h', 'o', 'd', '(', ')', '{', '}', '\n', '}', '\n']

/-- Sample text `class Foo {` / `}` with a final newline: a skeleton with no members. -/
def sampleSkeletonNoMembers : List Char :=
  ['c', 'l', 'a', 's', 's', ' ', 'F', 'o', 'o', ' ', '{', '\n', '}', '\n']

/-- Counterexample for C1 as stated: the transformation is not
idempotent — a second application drops the reduced member line of the
skeleton — and skeleton text is not a fixed point. -/
theorem claim_c1_counterexample :
    strip_logic_from_content (strip_logic_from_content (String.mk sampleClassSrc)) ≠
      strip_logic_from_content (String.mk sampleClassSrc) ∧
    strip_logic_from_content (String.mk sampleClassSrc) = String.mk sampleSkeleton ∧
    strip_logic_from_content (String.mk sampleSkeleton) ≠ String.mk sampleSkeleton := by
  decide

/-- Claim C1 (corrected).  Reduced member lines `name(){}` fail the
member-declaration patterns, so a second application drops them and
idempotence fails; a skeleton without member lines is a fixed point,
and on the example the result of the second application is itself
fixed by a third. -/
theorem claim_c1 :
    strip_logic_from_content (String.mk sampleSkeletonNoMembers) =
      String.mk sampleSkeletonNoMembers ∧
    strip_logic_from_content (strip_logic_from_content
        (strip_logic_from_content (String.mk sampleClassSrc))) =
      strip_logic_from_content (strip_logic_from_content (String.mk sampleClassSrc)) := by
  decide

/-- Claim C4 (confirmed).  The transformation is a total function: for
every input string a single pass of `runLines` produces an output
string, which is moreover never empty. -/
theorem claim_c4 (content : String) :
    ∃ out : String, strip_logic_from_content content = out ∧ out.data.isEmpty = false := by
  refine ⟨strip_logic_from_content content, rfl, ?_⟩
  show (stripCore content.data).isEmpty = false
  unfold stripCore
  cases joinNL (dropTrailingBlanks (runLines initState (splitLines content.data)).2) <;> rfl

/-- Claim C8 (corrected).  A recognized class/interface declaration
line is emitted as its trimmed text, with a space and an opening brace
appended when the trimmed text does not already end in one (not the raw
input line, whose indentation is discarded); the closing line of a type
block (trimmed text a lone closing brace) is emitted as that single
closing brace. -/
theorem claim_c8 :
    (∀ (st : ScanState) (line : Line), st.skip = 0 → st.inJSDoc = false →
        isClassOrInterfaceDecl line = true →
        (step st line).2 =
          [if endsWithBrace (jsTrim line) then jsTrim line
           else jsTrim line ++ [' ', '{']] ∧
        (step st line).1.inClass = true) ∧
    (∀ (st : ScanState) (line : Line), st.skip = 0 → st.inJSDoc = false →
        st.inClass = true → jsTrim line = ['}'] →
        (step st line).2 = [['}']] ∧ (step st line).1.inClass = false) := by
  constructor
  · intro st line h0 hj hcd
    have hjs : isJSDocStart line = false := by
      cases hx : isJSDocStart line with
      | false => rfl
      | true => rw [not_classDecl_of_jsdocStart hx] at hcd; exact absurd hcd (by simp)
    have hif : isIfStatement line = false := by
      cases hx : isIfStatement line with
      | false => rfl
      | true => rw [not_classDecl_of_ifStatement hx] at hcd; exact absurd hcd (by simp)
    simp [step, h0, hj, hjs, hif, hcd]
  · intro st line h0 hj hc hbr
    have hjs : isJSDocStart line = false := by
      unfold isJSDocStart; rw [hbr]; decide
    have hif : isIfStatement line = false := by
      unfold isIfStatement; rw [hbr]; decide
    have hcd : isClassOrInterfaceDecl line = false := by
      unfold isClassOrInterfaceDecl; rw [hbr]; decide
    simp [step, h0, hj, hjs, hif, hcd, hbr, hc]

/-- Witness for C8: a brace-less class line gets ` {` appended; an
indented closing line is emitted as the lone closing brace. -/
theorem claim_c8_witness :
    (step ⟨false, false, 0⟩ ['c', 'l', 'a', 's', 's', ' ', 'F', 'o', 'o']).2 =
      [['c', 'l', 'a', 's', 's', ' ', 'F', 'o', 'o', ' ', '{']] ∧
    (step ⟨false, true, 0⟩ [' ', '}']).2 = [['}']] := by
  constructor
  · have h := (claim_c8.1 ⟨false, false, 0⟩
      ['c', 'l', 'a', 's', 's', ' ', 'F', 'o', 'o'] rfl rfl (by decide)).1
    rw [h]; decide
  · exact (claim_c8.2 ⟨false, true, 0⟩ [' ', '}'] rfl rfl rfl (by decide)).1

/-- Counterexample for C8 as stated: an indented class line already
ending in an opening brace (so no reformatting is licensed by the
claim) is not emitted verbatim — the output of the whole transformation
does not contain it as a line. -/
theorem claim_c8_counterexample :
    isClassOrInterfaceDecl
        [' ', ' ', 'c', 'l', 'a', 's', 's', ' ', 'F', 'o', 'o', ' ', '{'] = true ∧
    endsWithBrace (jsTrim [' ', ' ', 'c', 'l', 'a', 's', 's', ' ', 'F', 'o', 'o', ' ', '{']) = true ∧
    stripCore ([' ', ' ', 'c', 'l', 'a', 's', 's', ' ', 'F', 'o', 'o', ' ', '{', '\n', '}', '\n']) =
      ['c', 'l', 'a', 's', 's', ' ', 'F', 'o', 'o', ' ', '{', '\n', '}', '\n'] ∧
    (splitLines ['c', 'l', 'a', 's', 's', ' ', 'F', 'o', 'o', ' ', '{', '\n', '}', '\n']).contains
      [' ', ' ', 'c', 'l', 'a', 's', 's', ' ', 'F', 'o', 'o', ' ', '{'] = false := by
  decide

/-! ### Output-shape lemmas for claim C6 -/

theorem splitLines_ne_nil : ∀ cs : List Char, splitLines cs ≠ [] := by
  intro cs
  induction cs with
  | nil => simp [splitLines]
  | cons c cs ih =>
    by_cases hc : c = '\n'
    · simp [splitLines, hc]
    · simp only [splitLines, if_neg hc]
      cases h : splitLines cs with
      | nil => simp
      | cons a rest => simp

theorem mem_splitLines_no_newline :
    ∀ (cs : List Char) (l : Line), l ∈ splitLines cs → '\n' ∉ l := by
  intro cs
  induction cs with
  | nil =>
    intro l hl
    simp [splitLines] at hl
    simp [hl]
  | cons c cs ih =>
    intro l hl
    by_cases hc : c = '\n'
    · rw [splitLines, if_pos hc] at hl
      rcases List.mem_cons.mp hl with h | h
      · simp [h]
      · exact ih l h
    · rw [splitLines, if_neg hc] at hl
      cases hsp : splitLines cs with
      | nil => exact absurd hsp (splitLines_ne_nil cs)
      | cons a rest =>
        rw [hsp] at hl
        rcases List.mem_cons.mp hl with h | h
        · subst h
          intro hmem
          rcases List.mem_cons.mp hmem with h2 | h2
          · exact hc h2.symm
          · exact ih a (by rw [hsp]; exact List.mem_cons_self a rest) h2
        · exact ih l (by rw [hsp]; exact List.mem_cons_of_mem a h)

theorem mem_of_mem_dropWs {x : Char} {l : Line} (h : x ∈ dropWs l) : x ∈ l :=
  (List.dropWhile_sublist jsWhitespace).subset h

theorem mem_of_mem_jsTrim {x : Char} {l : Line} (h : x ∈ jsTrim l) : x ∈ l := by
  unfold jsTrim at h
  have h1 := List.mem_reverse.mp h
  have h2 := (List.dropWhile_sublist jsWhitespace).subset h1
  exact mem_of_mem_dropWs (List.mem_reverse.mp h2)

theorem mem_stripTrailingBrace :
    ∀ (l : Line) (x : Char), x ∈ stripTrailingBrace l → x ∈ l := by
  intro l
  induction l with
  | nil => intro x hx; simp [stripTrailingBrace] at hx
  | cons c cs ih =>
    intro x hx
    simp only [stripTrailingBrace] at hx
    split at hx
    · simp at hx
    · rcases List.mem_cons.mp hx with h | h
      · exact h ▸ List.mem_cons_self c cs
      · exact List.mem_cons_of_mem c (ih x h)

theorem mem_collapseWsBraces :
    ∀ (l : Line) (x : Char), x ∈ collapseWsBraces l → x ∈ l ∨ x = '{' ∨ x = '}' := by
  intro l
  induction l with
  | nil => intro x hx; simp [collapseWsBraces] at hx
  | cons c cs ih =>
    intro x hx
    simp only [collapseWsBraces] at hx
    split at hx
    · split at hx
      · next heq =>
        rcases List.mem_cons.mp hx with h | h
        · exact Or.inr (Or.inl h)
        · rcases List.mem_cons.mp h with h2 | h2
          · exact Or.inr (Or.inr h2)
          · refine Or.inl (List.mem_cons_of_mem c (mem_of_mem_dropWs ?_))
            rw [heq]
            exact List.mem_cons_of_mem _ (List.mem_cons_of_mem _ h2)
      · rcases List.mem_cons.mp hx with h | h
        · exact Or.inl (h ▸ List.mem_cons_self c cs)
        · rcases ih x h with h2 | h2
          · exact Or.inl (List.mem_cons_of_mem c h2)
          · exact Or.inr h2
    · rcases List.mem_cons.mp hx with h | h
      · exact Or.inl (h ▸ List.mem_cons_self c cs)
      · rcases ih x h with h2 | h2
        · exact Or.inl (List.mem_cons_of_mem c h2)
        · exact Or.inr h2

theorem mem_collapseArrowWs :
    ∀ (l : Line) (x : Char),
      x ∈ collapseArrowWs l → x ∈ l ∨ x ∈ [')', '=', '>', '{', '}'] := by
  intro l
  induction l with
  | nil => intro x hx; simp [collapseArrowWs] at hx
  | cons c cs ih =>
    intro x hx
    simp only [collapseArrowWs] at hx
    split at hx
    · split at hx
      · next heq1 =>
        split at hx
        · next heq2 =>
          rcases List.mem_cons.mp hx with h | h
          · exact Or.inr (by simp [h])
          · rcases List.mem_cons.mp h with h2 | h2
            · exact Or.inr (by simp [h2])
            · rcases List.mem_cons.mp h2 with h3 | h3
              · exact Or.inr (by simp [h3])
              · rcases List.mem_cons.mp h3 with h4 | h4
                · exact Or.inr (by simp [h4])
                · rcases List.mem_cons.mp h4 with h5 | h5
                  · exact Or.inr (by simp [h5])
                  · -- x is in the tail after the collapsed arrow
                    have s1 := List.mem_cons_of_mem '{' (List.mem_cons_of_mem '}' h5)
                    have s2 := heq2.symm ▸ s1
                    have s3 := mem_of_mem_dropWs s2
                    have s4 := List.mem_cons_of_mem '=' (List.mem_cons_of_mem '>' s3)
                    have s5 := heq1.symm ▸ s4
                    exact Or.inl (List.mem_cons_of_mem c (mem_of_mem_dropWs s5))
        · rcases List.mem_cons.mp hx with h | h
          · exact Or.inl (h ▸ List.mem_cons_self c cs)
          · rcases ih x h with h2 | h2
            · exact Or.inl (List.mem_cons_of_mem c h2)
            · exact Or.inr h2
      · rcases List.mem_cons.mp hx with h | h
        · exact Or.inl (h ▸ List.mem_cons_self c cs)
        · rcases ih x h with h2 | h2
          · exact Or.inl (List.mem_cons_of_mem c h2)
          · exact Or.inr h2
    · rcases List.mem_cons.mp hx with h | h
      · exact Or.inl (h ▸ List.mem_cons_self c cs)
      · rcases ih x h with h2 | h2
        · exact Or.inl (List.mem_cons_of_mem c h2)
        · exact Or.inr h2

theorem finalize_no_newline {d : Line} (h : '\n' ∉ d) :
    '\n' ∉ finalizeDeclaration d := by
  intro hmem
  simp only [finalizeDeclaration] at hmem
  rcases mem_collapseArrowWs _ _ hmem with h1 | h1
  · rcases mem_collapseWsBraces _ _ h1 with h2 | h2 | h2
    · rcases List.mem_append.mp h2 with h3 | h3
      · split at h3
        · exact h (mem_stripTrailingBrace _ _ h3)
        · rcases List.mem_append.mp h3 with h4 | h4
          · exact h (mem_stripTrailingBrace _ _ h4)
          · simp at h4
      · simp at h3
    · exact absurd h2 (by decide)
    · exact absurd h2 (by decide)
  · simp at h1

theorem step_no_newline {st : ScanState} {line : Line} (h : '\n' ∉ line) :
    ∀ m ∈ (step st line).2, '\n' ∉ m := by
  intro m hm
  have htr : '\n' ∉ jsTrim line := fun hx => h (mem_of_mem_jsTrim hx)
  by_cases h1 : st.skip > 0
  · simp [step, h1] at hm
  · by_cases h2 : st.inJSDoc
    · simp [step, h1, h2] at hm; exact hm ▸ h
    · by_cases h3 : isJSDocStart line
      · simp [step, h1, h2, h3] at hm; exact hm ▸ h
      · by_cases h4 : isIfStatement line
        · simp [step, h1, h2, h3, h4] at hm
        · by_cases h5 : isClassOrInterfaceDecl line
          · simp [step, h1, h2, h3, h4, h5] at hm
            subst hm
            by_cases hb : endsWithBrace (jsTrim line) <;>
              simp [hb, List.mem_append, htr]
          · by_cases h6 : jsTrim line = ['}']
            · by_cases h7 : st.inClass <;>
                simp [step, h1, h2, h3, h4, h5, h6, h7] at hm
              exact hm ▸ (by decide)
            · by_cases h7 : st.inClass
              · by_cases h8 : isMethodDecl line
                · simp [step, h1, h2, h3, h4, h5, h6, h7, h8] at hm
                  subst hm
                  intro hx
                  rcases List.mem_cons.mp hx with hc | hc
                  · exact absurd hc (by decide)
                  · rcases List.mem_cons.mp hc with hc2 | hc2
                    · exact absurd hc2 (by decide)
                    · exact finalize_no_newline htr hc2
                · simp [step, h1, h2, h3, h4, h5, h6, h7, h8] at hm
              · by_cases h9 : isFunctionDecl line
                · simp [step, h1, h2, h3, h4, h5, h6, h7, h9] at hm
                  exact hm ▸ finalize_no_newline htr
                · by_cases h10 : isImportExport line = true ∨ isComment line = true
                  · simp [step, h1, h2, h3, h4, h5, h6, h7, h9, h10] at hm
                    exact hm ▸ h
                  · simp [step, h1, h2, h3, h4, h5, h6, h7, h9, h10] at hm

theorem runLines_no_newline :
    ∀ (ls : List Line) (st : ScanState), (∀ l ∈ ls, '\n' ∉ l) →
      ∀ m ∈ (runLines st ls).2, '\n' ∉ m := by
  intro ls
  induction ls with
  | nil => intro st _ m hm; simp [runLines] at hm
  | cons l ls ih =>
    intro st h m hm
    simp only [runLines] at hm
    rcases List.mem_append.mp hm with h1 | h1
    · exact step_no_newline (h l (List.mem_cons_self l ls)) m h1
    · exact ih _ (fun x hx => h x (List.mem_cons_of_mem l hx)) m h1

theorem mem_dropTrailingBlanks {x : Line} {ls : List Line}
    (h : x ∈ dropTrailingBlanks ls) : x ∈ ls := by
  unfold dropTrailingBlanks at h
  have h1 := List.mem_reverse.mp h
  have h2 := (List.dropWhile_sublist isBlankLine).subset h1
  exact List.mem_reverse.mp h2

theorem getLast?_dropTrailingBlanks {ls : List Line} {l : Line}
    (h : (dropTrailingBlanks ls).getLast? = some l) : isBlankLine l = false := by
  unfold dropTrailingBlanks at h
  rw [List.getLast?_reverse] at h
  have := List.head?_dropWhile_not isBlankLine ls.reverse
  rw [h] at this
  exact this

/-- Claim C6 (confirmed).  Every output is a join of newline-free
buffered lines, with trailing blank lines dropped, followed by exactly
one final newline; the empty input yields exactly one newline. -/
theorem claim_c6 :
    (∀ content : String, ∃ ls : List Line,
        strip_logic_from_content content = String.mk (joinNL ls ++ ['\n']) ∧
        ls.all (fun l => !(l.contains '\n')) = true ∧
        Option.all (fun l => !(isBlankLine l)) ls.getLast? = true) ∧
    strip_logic_from_content (String.mk []) = String.mk ['\n'] := by
  constructor
  · intro content
    refine ⟨dropTrailingBlanks (runLines initState (splitLines content.data)).2,
      rfl, ?_, ?_⟩
    · rw [List.all_eq_true]
      intro l hl
      have hnl : '\n' ∉ l :=
        runLines_no_newline _ _ (fun x hx => mem_splitLines_no_newline _ x hx) l
          (mem_dropTrailingBlanks hl)
      simpa using hnl
    · cases hgl : (dropTrailingBlanks
          (runLines initState (splitLines content.data)).2).getLast? with
      | none => rfl
      | some l => simp [Option.all, getLast?_dropTrailingBlanks hgl]
  · decide

/-! ### Claim C7: preserved import/export lines -/

/-- A line whose processing state and classification make the scanner
keep it verbatim through the import/export rule: no body being skipped,
not inside a type block, an import/export line that is not captured by
the earlier class/interface or function/arrow rules. -/
def keptVerbatim (st : ScanState) (l : Line) : Bool :=
  st.skip == 0 && !st.inClass && isImportExport l &&
    !(isClassOrInterfaceDecl l) && !(isFunctionDecl l)

/-- The input lines kept verbatim by `keptVerbatim`, in input order,
threading the scanner state. -/
def verbatimKeeps : ScanState → List Line → List Line
  | _, [] => []
  | st, l :: ls =>
    (if keptVerbatim st l then [l] else []) ++ verbatimKeeps (step st l).1 ls

theorem step_keptVerbatim {st : ScanState} {l : Line}
    (h : keptVerbatim st l = true) : (step st l).2 = [l] := by
  have h' := h
  unfold keptVerbatim at h'
  simp only [Bool.and_eq_true, beq_iff_eq, Bool.not_eq_true'] at h'
  obtain ⟨⟨⟨⟨h0, hcl⟩, hie⟩, hcd⟩, hfd⟩ := h'
  by_cases hj : st.inJSDoc
  · simp [step, h0, hj]
  · have hjs := importExport_not_jsdocStart hie
    have hif := importExport_not_ifStatement hie
    have hbr := importExport_trim_ne_brace hie
    simp [step, h0, hj, hjs, hif, hcd, hbr, hcl, hfd, hie]

theorem verbatimKeeps_sublist :
    ∀ (ls : List Line) (st : ScanState),
      List.Sublist (verbatimKeeps st ls) (runLines st ls).2 := by
  intro ls
  induction ls with
  | nil => intro st; simp [verbatimKeeps, runLines]
  | cons l ls ih =>
    intro st
    simp only [verbatimKeeps, runLines]
    by_cases hk : keptVerbatim st l
    · rw [if_pos hk, step_keptVerbatim hk]
      simpa using List.Sublist.cons₂ l (ih (step st l).1)
    · rw [if_neg hk]
      simp only [List.nil_append]
      exact (ih _).trans (List.sublist_append_right _ _)

theorem verbatimKeeps_nonblank :
    ∀ (ls : List Line) (st : ScanState) (k : Line),
      k ∈ verbatimKeeps st ls → isBlankLine k = false := by
  intro ls
  induction ls with
  | nil => intro st k hk; simp [verbatimKeeps] at hk
  | cons l ls ih =>
    intro st k hk
    simp only [verbatimKeeps] at hk
    rcases List.mem_append.mp hk with h1 | h1
    · by_cases hkv : keptVerbatim st l
      · rw [if_pos hkv] at h1
        simp at h1
        subst h1
        have hie : isImportExport k = true := by
          unfold keptVerbatim at hkv
          simp only [Bool.and_eq_true] at hkv
          exact hkv.1.1.2
        exact importExport_not_blank hie
      · rw [if_neg hkv] at h1; simp at h1
    · exact ih _ k h1

theorem sublist_dropTrailingBlanks {ks out : List Line}
    (hk : ∀ k ∈ ks, isBlankLine k = false)
    (hs : List.Sublist ks out) : List.Sublist ks (dropTrailingBlanks out) := by
  have hdecomp :
      dropTrailingBlanks out ++ (out.reverse.takeWhile isBlankLine).reverse = out := by
    unfold dropTrailingBlanks
    rw [← List.reverse_append, List.takeWhile_append_dropWhile, List.reverse_reverse]
  rw [← hdecomp] at hs
  obtain ⟨r1, r2, hks, hs1, hs2⟩ := List.sublist_append_iff.mp hs
  have hr2 : r2 = [] := by
    cases r2 with
    | nil => rfl
    | cons x xs =>
      have hxks : x ∈ ks := by
        rw [hks]; exact List.mem_append_right r1 (List.mem_cons_self x xs)
      have hxb : isBlankLine x = false := hk x hxks
      have hxT : x ∈ (out.reverse.takeWhile isBlankLine).reverse :=
        hs2.subset (List.mem_cons_self x xs)
      have hxb2 : isBlankLine x = true :=
        List.mem_takeWhile_imp (List.mem_reverse.mp hxT)
      rw [hxb] at hxb2
      exact absurd hxb2 (by simp)
  subst hr2
  rw [List.append_nil] at hks
  rw [hks]
  exact hs1

/-- Claim C7 (corrected).  Import/export lines processed outside any
body and outside a type block that are not captured by the earlier
class/interface or function/arrow rules are kept verbatim, and in
input order, among the final output lines; lines such as
`export function foo() {` or `export class Foo` are instead reformatted
by those earlier rules. -/
theorem claim_c7 (content : String) :
    List.Sublist (verbatimKeeps initState (splitLines content.data))
      (dropTrailingBlanks (runLines initState (splitLines content.data)).2) ∧
    strip_logic_from_content content =
      String.mk (joinNL (dropTrailingBlanks
        (runLines initState (splitLines content.data)).2) ++ ['\n']) := by
  refine ⟨?_, rfl⟩
  exact sublist_dropTrailingBlanks
    (fun k hk => verbatimKeeps_nonblank _ _ k hk)
    (verbatimKeeps_sublist _ _)

/-- Counterexample for C7 as stated: the line `export function foo() {`
is an import/export statement line at top level outside any body, but
the output contains only its reduced form, not the verbatim line. -/
theorem claim_c7_counterexample :
    isImportExport
        ['e', 'x', 'p', 'o', 'r', 't', ' ', 'f', 'u', 'n', 'c', 't', 'i', 'o', 'n',
         ' ', 'f', 'o', 'o', '(', ')', ' ', '{'] = true ∧
    stripCore
        (['e', 'x', 'p', 'o', 'r', 't', ' ', 'f', 'u', 'n', 'c', 't', 'i', 'o', 'n',
          ' ', 'f', 'o', 'o', '(', ')', ' ', '{'] ++ ['\n', '}', '\n']) =
      ['e', 'x', 'p', 'o', 'r', 't', ' ', 'f', 'u', 'n', 'c', 't', 'i', 'o', 'n',
       ' ', 'f', 'o', 'o', '(', ')', '{', '}', '\n'] ∧
    (splitLines
        ['e', 'x', 'p', 'o', 'r', 't', ' ', 'f', 'u', 'n', 'c', 't', 'i', 'o', 'n',
         ' ', 'f', 'o', 'o', '(', ')', '{', '}', '\n']).contains
      ['e', 'x', 'p', 'o', 'r', 't', ' ', 'f', 'u', 'n', 'c', 't', 'i', 'o', 'n',
       ' ', 'f', 'o', 'o', '(', ')', ' ', '{'] = false := by
  decide
